import Mathlib

/-
  Verification of the hybrid search / rank-fusion engine of the zotero-mcp
  repository (module `zotero-core`), a shallow embedding of
  `services/search_service.py`, `services/semantic_search.py` and
  `services/hybrid_search.py`.  Python floats are modelled as rationals;
  Python exceptions are modelled by an explicit `Except` monad over an
  exception type; the external collaborators (the Zotero HTTP client and the
  ChromaDB vector store, which are not part of the verified sources) are
  modelled as injected functions, following the dependency-injection design
  the services themselves use.
-/

namespace ZoteroCore

/-- Modelled from the spec: the data-model module `zotero_core.models` is not
among the provided sources; the fields follow spec section 3
(`SearchResultItem`: one ranked record).  Score fields are nullable floats,
modelled as `Option` of rationals; unset fields default to null as pydantic
fields do. -/
structure SearchResultItem where
  key : String
  title : String := "Untitled"
  item_type : String := "unknown"
  authors : Option String := none
  keyword_score : Option ℚ := none
  semantic_score : Option ℚ := none
  relevance_score : Option ℚ := none
  rank : Option Nat := none
  snippet : Option String := none
  deriving Repr, DecidableEq

/-- Modelled from the spec: spec section 3 (`SearchResults`: container with
`query`, `total`, `count`, ordered `items`, `has_more`). -/
structure SearchResults where
  query : String
  total : Nat
  count : Nat
  items : List SearchResultItem
  has_more : Bool
  deriving Repr, DecidableEq

/-- Modelled from the spec: spec section 4.1 / 6 (`SearchItemsInput`: query,
keyword-mode string, item-type filter, optional tag filter, `limit`,
`offset`). -/
structure SearchItemsInput where
  query : String
  mode : String
  item_type : String
  tags : Option (List String)
  limit : Nat
  offset : Nat
  deriving Repr, DecidableEq

/-- The exception classes of the three services plus the external client
error, and a constructor for exceptions of any other Python type. -/
inductive Exc where
  | zoteroClientError (msg : String)
  | searchServiceError (msg : String)
  | semanticSearchServiceError (msg : String)
  | hybridSearchServiceError (msg : String)
  | otherError (msg : String)
  deriving Repr, DecidableEq

/-- `str(e)` of a Python exception constructed with a single message. -/
def Exc.message : Exc → String
  | Exc.zoteroClientError m => m
  | Exc.searchServiceError m => m
  | Exc.semanticSearchServiceError m => m
  | Exc.hybridSearchServiceError m => m
  | Exc.otherError m => m

/-- An upstream tag as returned by the client: either a dict (whose
`tag.get ("tag", "")` value is `tagField`, the empty string when the field
is missing) or a plain string (search_service.py lines 99-107). -/
inductive TagRep where
  | dict (tagField : String)
  | str (s : String)
  deriving Repr, DecidableEq

/-- External collaborator (spec section 6): the bibliographic client.
`search_items` returns the per-record normalization outcomes of the raw
records: `_normalize_search_result` / `_dict_to_search_result_item`
(search_service.py lines 119-205) deterministically turn one raw record into
one `SearchResultItem` or raise, and a raising record is skipped by the
service (lines 63-70); the embedding folds that per-record parse into the
client, `none` standing for a record whose normalization raises. -/
structure ZoteroClient where
  search_items : SearchItemsInput → Except Exc (List (Option SearchResultItem))
  get_tags : Except Exc (List TagRep)

/-- `SearchService` (search_service.py): keyword search over the client. -/
structure SearchService where
  client : ZoteroClient

/-- `SearchService.search_items` (search_service.py lines 37-80): call the
client, keep the successfully normalized items, set `has_more` to
`len >= limit`; a `ZoteroClientError` is re-raised as `SearchServiceError`
with message prefix `Keyword search failed: `. -/
def SearchService.search_items (svc : SearchService) (input : SearchItemsInput) :
    Except Exc SearchResults :=
  match svc.client.search_items input with
  | Except.error (Exc.zoteroClientError m) =>
      Except.error (Exc.searchServiceError ("Keyword search failed: " ++ m))
  | Except.error e => Except.error e
  | Except.ok items_data =>
      let found := items_data.filterMap id
      Except.ok { query := input.query, total := found.length, count := found.length,
                  items := found, has_more := decide (input.limit ≤ found.length) }

/-- Normalization of one upstream tag (search_service.py lines 101-107):
dicts contribute their `tag` field when non-empty (truthy), strings
contribute themselves when non-empty; everything else is dropped. -/
def normalizeTag : TagRep → Option String
  | TagRep.dict tagField => if tagField = "" then none else some tagField
  | TagRep.str s => if s = "" then none else some s

/-- The accumulation loop of search_tags building `normalized_tags` by
appending (search_service.py lines 100-107). -/
def normalizeTags (all_tags : List TagRep) : List String :=
  all_tags.foldl
    (fun acc tag =>
      match tag with
      | TagRep.dict tagField => if tagField = "" then acc else acc ++ [tagField]
      | TagRep.str s => if s = "" then acc else acc ++ [s])
    []

/-- Python `str.lower`, charwise. -/
def pyLower (s : String) : String := String.mk (s.data.map Char.toLower)

/-- Whether `needle` starts `hay`. -/
def charsHasPre : List Char → List Char → Bool
  | [], _ => true
  | _ :: _, [] => false
  | a :: as, b :: bs => a == b && charsHasPre as bs

/-- Whether `needle` occurs contiguously in `hay`. -/
def charsHasSub (needle : List Char) : List Char → Bool
  | [] => charsHasPre needle []
  | b :: bs => charsHasPre needle (b :: bs) || charsHasSub needle bs

/-- Python substring membership `needle in hay` on strings. -/
def pyInStr (needle hay : String) : Bool := charsHasSub needle.data hay.data

/-- `SearchService.search_tags` (search_service.py lines 82-117): fetch all
tags, normalize dict/string representations, keep those whose lowercase form
contains the lowercase query as a substring, cap at `limit`; a
`ZoteroClientError` is re-raised as `SearchServiceError`. -/
def SearchService.search_tags (svc : SearchService) (query : String) (limit : Nat) :
    Except Exc (List String) :=
  match svc.client.get_tags with
  | Except.error (Exc.zoteroClientError m) =>
      Except.error (Exc.searchServiceError ("Tag search failed: " ++ m))
  | Except.error e => Except.error e
  | Except.ok all_tags =>
      let normalized_tags := normalizeTags all_tags
      let query_lower := pyLower query
      Except.ok ((normalized_tags.filter fun tag => pyInStr query_lower (pyLower tag)).take limit)

/-- An input record of `SemanticSearchService.add_items`: a Python dict read
through `item.get` at the keys the code uses; `none` is a missing key. -/
structure PyItem where
  key : Option String := none
  title : Option String := none
  abstractNote : Option String := none
  abstract : Option String := none
  itemType : Option String := none
  deriving Repr, DecidableEq

/-- A metadata dict stored in / returned by the vector store; fields are
optional as dict lookups are. -/
structure SemMeta where
  key : Option String := none
  title : Option String := none
  item_type : Option String := none
  deriving Repr, DecidableEq

/-- One `collection.add` invocation with its batch arguments. -/
structure AddCall where
  ids : List String
  documents : List String
  metadatas : List SemMeta
  deriving Repr, DecidableEq

/-- External collaborator (spec section 6): the vector-store collection's
`add (ids, documents, metadatas)` operation. -/
structure VectorStore where
  add : List String → List String → List SemMeta → Except Exc Unit

/-- `SemanticSearchService` (semantic_search.py) holding its collection. -/
structure SemanticSearchService where
  collection : VectorStore

/-- Document text built for indexing (semantic_search.py lines 111-114):
title plus abstract when an abstract exists, else the title alone. -/
def PyItem.documentText (item : PyItem) : String :=
  let title := item.title.getD ""
  let abstract :=
    if item.abstractNote.getD "" ≠ "" then item.abstractNote.getD ""
    else item.abstract.getD ""
  if abstract ≠ "" then title ++ ". " ++ abstract else title

/-- The batch-building loop of `add_items` (semantic_search.py lines
100-124): items without a truthy `key` are skipped; kept items contribute
their key, document text and metadata, in order. -/
def buildBatch : List PyItem → List String × List String × List SemMeta
  | [] => ([], [], [])
  | item :: rest =>
    match item.key with
    | none => buildBatch rest
    | some k =>
      if k = "" then buildBatch rest
      else
        let b := buildBatch rest
        (k :: b.1, item.documentText :: b.2.1,
          { key := some k, title := some (item.title.getD ""),
            item_type := some (item.itemType.getD "unknown") } :: b.2.2)

/-- `SemanticSearchService.add_items` (semantic_search.py lines 83-142),
together with the trace of `collection.add` invocations it performs: empty
input or an empty id batch returns 0 with no store call; otherwise one
`add` call is made and its failure (of any type) is wrapped as
`SemanticSearchServiceError`. -/
def SemanticSearchService.add_items (svc : SemanticSearchService) (items : List PyItem) :
    (Except Exc Nat) × List AddCall :=
  if items = [] then (Except.ok 0, [])
  else
    let b := buildBatch items
    if b.1 = [] then (Except.ok 0, [])
    else
      match svc.collection.add b.1 b.2.1 b.2.2 with
      | Except.ok _ => (Except.ok b.1.length, [⟨b.1, b.2.1, b.2.2⟩])
      | Except.error e =>
          (Except.error (Exc.semanticSearchServiceError ("Failed to add items: " ++ e.message)),
            [⟨b.1, b.2.1, b.2.2⟩])

/-- The keys of the items `add_items` keeps: present and non-empty (truthy). -/
def truthyKeys (items : List PyItem) : List String :=
  items.filterMap fun item =>
    match item.key with
    | none => none
    | some k => if k = "" then none else some k

/-- Generic 1-based enumeration map, Python `for r, x in enumerate (lst, r0)`
followed by a per-element update. -/
def mapWithRank {α β : Type} (f : Nat → α → β) : Nat → List α → List β
  | _, [] => []
  | r, x :: xs => f r x :: mapWithRank f (r + 1) xs

/-- The `mode` literal of `HybridSearchService.search`. -/
inductive Mode where
  | keyword
  | semantic
  | hybrid
  deriving Repr, DecidableEq

/-- One result dict of the semantic collaborator's `search`: key, similarity
score, metadata and optional document text. -/
structure SemanticHit where
  key : String
  score : ℚ
  metadata : SemMeta := {}
  document : Option String := none
  deriving Repr, DecidableEq

/-- `HybridSearchService` (hybrid_search.py lines 29-68): a required keyword
service, an optional semantic collaborator (dependency-injected; its `search`
operation is the only one the hybrid service calls), and the RRF constant. -/
structure HybridSearchService where
  keyword_search : SearchService
  semantic_search : Option (String → Nat → Except Exc (List SemanticHit)) := none
  rrf_k : Int := 60

/-- The keyword-score annotation of `_keyword_search` (hybrid_search.py lines
151-154): at 1-based rank `r`, `keyword_score = 1.0 / r`, `relevance_score =
keyword_score`, `rank = r`. -/
def keywordAnnotate (r : Nat) (item : SearchResultItem) : SearchResultItem :=
  { item with keyword_score := some (1 / (r : ℚ)),
              relevance_score := some (1 / (r : ℚ)),
              rank := some r }

/-- `_keyword_search` (hybrid_search.py lines 118-156). -/
def HybridSearchService.keywordSearchRun (svc : HybridSearchService) (query : String)
    (top_k : Nat) (keyword_mode item_type : String) (tags : Option (List String)) :
    Except Exc SearchResults :=
  match svc.keyword_search.search_items
      { query := query, mode := keyword_mode, item_type := item_type,
        tags := tags, limit := top_k, offset := 0 } with
  | Except.error e => Except.error e
  | Except.ok results =>
      Except.ok { results with items := mapWithRank keywordAnnotate 1 results.items }

/-- Conversion of one semantic hit to a `SearchResultItem` (hybrid_search.py
lines 182-193). -/
def semanticHitToItem (r : Nat) (hit : SemanticHit) : SearchResultItem :=
  { key := hit.key,
    title := hit.metadata.title.getD "Untitled",
    item_type := hit.metadata.item_type.getD "unknown",
    semantic_score := some hit.score,
    relevance_score := some hit.score,
    rank := some r,
    snippet := hit.document }

/-- `_semantic_search` (hybrid_search.py lines 158-201): with no collaborator
configured it raises `HybridSearchServiceError` mentioning unavailability;
otherwise it queries the collaborator and converts the hits, with
`has_more = False`. -/
def HybridSearchService.semanticSearchRun (svc : HybridSearchService) (query : String)
    (top_k : Nat) : Except Exc SearchResults :=
  match svc.semantic_search with
  | none =>
      Except.error
        (Exc.hybridSearchServiceError "Semantic search unavailable. Please install chromadb.")
  | some collab =>
      match collab query top_k with
      | Except.error e => Except.error e
      | Except.ok hits =>
          let items := mapWithRank semanticHitToItem 1 hits
          Except.ok { query := query, total := items.length, count := items.length,
                      items := items, has_more := false }

/-- One value of the fusion accumulator map `scores` (hybrid_search.py lines
277-310). -/
structure ScoreData where
  item : SearchResultItem
  keyword_score : ℚ
  semantic_score : ℚ
  keyword_rank : Option Nat
  semantic_rank : Option Nat
  deriving Repr, DecidableEq

/-- Lookup in the insertion-ordered dict `scores`. -/
def dictFind (key : String) : List (String × ScoreData) → Option ScoreData
  | [] => none
  | p :: rest => if p.1 = key then some p.2 else dictFind key rest

/-- In-place update of the entry at `key` in the dict `scores`. -/
def dictUpdate (key : String) (f : ScoreData → ScoreData) :
    List (String × ScoreData) → List (String × ScoreData)
  | [] => []
  | p :: rest =>
      if p.1 = key then (p.1, f p.2) :: dictUpdate key f rest
      else p :: dictUpdate key f rest

/-- One iteration of the keyword loop of `_rrf_fusion` (hybrid_search.py
lines 280-293): insert a fresh accumulator when the key is new, then add the
keyword RRF contribution `1 / (k + rank)` and record the keyword rank. -/
def rrfKeywordStep (k : Int) (scores : List (String × ScoreData)) (r : Nat)
    (item : SearchResultItem) : List (String × ScoreData) :=
  let scores' :=
    if (dictFind item.key scores).isSome then scores
    else scores ++ [(item.key, ⟨item, 0, 0, some r, none⟩)]
  dictUpdate item.key
    (fun d => { d with keyword_score := d.keyword_score + 1 / ((k : ℚ) + r),
                       keyword_rank := some r }) scores'

/-- One iteration of the semantic loop of `_rrf_fusion` (hybrid_search.py
lines 296-310). -/
def rrfSemanticStep (k : Int) (scores : List (String × ScoreData)) (r : Nat)
    (item : SearchResultItem) : List (String × ScoreData) :=
  let scores' :=
    if (dictFind item.key scores).isSome then scores
    else scores ++ [(item.key, ⟨item, 0, 0, none, some r⟩)]
  dictUpdate item.key
    (fun d => { d with semantic_score := d.semantic_score + 1 / ((k : ℚ) + r),
                       semantic_rank := some r }) scores'

/-- The keyword loop of `_rrf_fusion`, ranks enumerated from `r`. -/
def rrfProcessKeyword (k : Int) : List SearchResultItem →
    List (String × ScoreData) → Nat → List (String × ScoreData)
  | [], scores, _ => scores
  | item :: rest, scores, r =>
      rrfProcessKeyword k rest (rrfKeywordStep k scores r item) (r + 1)

/-- The semantic loop of `_rrf_fusion`, ranks enumerated from `r`. -/
def rrfProcessSemantic (k : Int) : List SearchResultItem →
    List (String × ScoreData) → Nat → List (String × ScoreData)
  | [], scores, _ => scores
  | item :: rest, scores, r =>
      rrfProcessSemantic k rest (rrfSemanticStep k scores r item) (r + 1)

/-- Final per-entry scoring of `_rrf_fusion` (hybrid_search.py lines
313-328): positive accumulators are stored, zero ones become null, and the
relevance score is the plain sum of the two accumulators. -/
def finalizeEntry (d : ScoreData) : SearchResultItem :=
  { d.item with
    keyword_score := if 0 < d.keyword_score then some d.keyword_score else none,
    semantic_score := if 0 < d.semantic_score then some d.semantic_score else none,
    relevance_score := some (d.keyword_score + d.semantic_score) }

/-- The sort key `x.relevance_score or 0.0` of the final sort. -/
def relKey (item : SearchResultItem) : ℚ := item.relevance_score.getD 0

/-- Stable insertion for a descending sort: `x` goes in front of the first
strictly smaller element, after every earlier element of equal key. -/
def insertDescStable (x : SearchResultItem) : List SearchResultItem → List SearchResultItem
  | [] => [x]
  | y :: ys => if relKey y < relKey x then x :: y :: ys else y :: insertDescStable x ys

/-- Python `list.sort (reverse=True)` on the fused list: a stable descending
sort by `relKey`. -/
def sortDescStable (l : List SearchResultItem) : List SearchResultItem :=
  l.foldl (fun acc x => insertDescStable x acc) []

/-- `_rrf_fusion` (hybrid_search.py lines 258-334): accumulate both lists
into the keyed map, finalize the per-item scores, sort by combined score
descending (stable) and truncate to `top_k`. -/
def rrfFusion (k : Int) (keyword_results : SearchResults)
    (semantic_results : Option SearchResults) (top_k : Nat) : List SearchResultItem :=
  let scoresKw := rrfProcessKeyword k keyword_results.items [] 1
  let scores :=
    match semantic_results with
    | none => scoresKw
    | some sr => rrfProcessSemantic k sr.items scoresKw 1
  let fused := scores.map fun p => finalizeEntry p.2
  (sortDescStable fused).take top_k

/-- `_hybrid_search_rrf` (hybrid_search.py lines 203-256): oversample with
`fetch_k = top_k * 2`, fetch keyword results, attempt the semantic fetch
when a collaborator is configured — suppressing exactly
`SemanticSearchServiceError` (the `contextlib.suppress` on lines 238-241) —
fuse, renumber ranks, and take `has_more` from the keyword results. -/
def HybridSearchService.hybridSearchRrf (svc : HybridSearchService) (query : String)
    (top_k : Nat) (keyword_mode item_type : String) (tags : Option (List String)) :
    Except Exc SearchResults :=
  let fetch_k := top_k * 2
  match svc.keywordSearchRun query fetch_k keyword_mode item_type tags with
  | Except.error e => Except.error e
  | Except.ok keyword_results =>
      let semStep : Except Exc (Option SearchResults) :=
        match svc.semantic_search with
        | none => Except.ok none
        | some _ =>
            match svc.semanticSearchRun query fetch_k with
            | Except.ok r => Except.ok (some r)
            | Except.error (Exc.semanticSearchServiceError _) => Except.ok none
            | Except.error e => Except.error e
      match semStep with
      | Except.error e => Except.error e
      | Except.ok semantic_results =>
          let fused := rrfFusion svc.rrf_k keyword_results semantic_results top_k
          let ranked := mapWithRank (fun r item => { item with rank := some r }) 1 fused
          Except.ok { query := query, total := ranked.length, count := ranked.length,
                      items := ranked, has_more := keyword_results.has_more }

/-- The `except (SearchServiceError, SemanticSearchServiceError)` wrapper of
`search` (hybrid_search.py lines 115-116), applied to the branch outcome. -/
def wrapSearchError : Except Exc SearchResults → Except Exc SearchResults
  | Except.error (Exc.searchServiceError m) =>
      Except.error (Exc.hybridSearchServiceError ("Search failed: " ++ m))
  | Except.error (Exc.semanticSearchServiceError m) =>
      Except.error (Exc.hybridSearchServiceError ("Search failed: " ++ m))
  | r => r

/-- `HybridSearchService.search` (hybrid_search.py lines 70-116) with the
source's default arguments. -/
def HybridSearchService.search (svc : HybridSearchService) (query : String)
    (mode : Mode := Mode.hybrid) (top_k : Nat := 10)
    (keyword_mode : String := "titleCreatorYear") (item_type : String := "-attachment")
    (tags : Option (List String) := none) : Except Exc SearchResults :=
  wrapSearchError
    (match mode with
     | Mode.keyword => svc.keywordSearchRun query top_k keyword_mode item_type tags
     | Mode.semantic => svc.semanticSearchRun query top_k
     | Mode.hybrid => svc.hybridSearchRrf query top_k keyword_mode item_type tags)

/-- The RRF accumulator the claims speak about: starting at rank `r0`, each
position holding `key` contributes the reciprocal `1 / (k + r)` of its
1-based rank `r`; positions holding other keys contribute nothing. -/
def rrfAccumFrom (k : Int) : Nat → List String → String → ℚ
  | _, [], _ => 0
  | r, x :: xs, key =>
      (if x = key then 1 / ((k : ℚ) + r) else 0) + rrfAccumFrom k (r + 1) xs key

/-- The full per-list RRF accumulator, ranks starting at 1. -/
def rrfAccum (k : Int) (keys : List String) (key : String) : ℚ :=
  rrfAccumFrom k 1 keys key

/-- Insertion-ordered key sequence of a Python dict built by repeated
key insertion starting from `acc`. -/
def insertOrderKeys (acc : List String) : List String → List String
  | [] => acc
  | x :: xs => insertOrderKeys (if x ∈ acc then acc else acc ++ [x]) xs

/-- The current keyword accumulator of `key` in the fusion map, 0 when the
key is absent (the accumulator's initial value). -/
def curKw (scores : List (String × ScoreData)) (key : String) : ℚ :=
  match dictFind key scores with
  | some d => d.keyword_score
  | none => 0

/-- The current semantic accumulator of `key` in the fusion map, 0 when the
key is absent. -/
def curSem (scores : List (String × ScoreData)) (key : String) : ℚ :=
  match dictFind key scores with
  | some d => d.semantic_score
  | none => 0

/-- A minimal normalized bibliographic record with the given key. -/
def itemW (k : String) : SearchResultItem := { key := k, title := k }

/-- A client returning a fixed normalized item list for every search input. -/
def clientW (its : List SearchResultItem) : ZoteroClient :=
  { search_items := fun _ => Except.ok (its.map some), get_tags := Except.ok [] }

/-- Concrete hybrid service with no semantic collaborator configured. -/
def hybridSvcNoSem : HybridSearchService :=
  { keyword_search := ⟨clientW [itemW "A", itemW "B"]⟩ }

/-- Concrete semantic collaborator returning one hit. -/
def semCollabW : String → Nat → Except Exc (List SemanticHit) :=
  fun _ _ => Except.ok [{ key := "S1", score := 9 / 10 }]

/-- Concrete hybrid service with a working semantic collaborator. -/
def hybridSvcW : HybridSearchService :=
  { keyword_search := ⟨clientW [itemW "A", itemW "B"]⟩,
    semantic_search := some semCollabW }

/-- Extract the results of a successful search run. -/
def runOk (x : Except Exc SearchResults) : SearchResults :=
  match x with
  | Except.ok r => r
  | Except.error _ => { query := "", total := 0, count := 0, items := [], has_more := false }

/-- The concrete semantic-mode results of `hybridSvcW`. -/
def semResW : SearchResults :=
  runOk (hybridSvcW.search "q" Mode.semantic 10 "titleCreatorYear" "-attachment" none)

/-- The concrete hybrid-mode results of `hybridSvcW`. -/
def hybridResW : SearchResults :=
  runOk (hybridSvcW.search "q" Mode.hybrid 10 "titleCreatorYear" "-attachment" none)

/-- The concrete in-call keyword fetch (limit `10 * 2`) of `hybridSvcW`. -/
def kwFetchResW : SearchResults :=
  runOk (hybridSvcW.keywordSearchRun "q" (10 * 2) "titleCreatorYear" "-attachment" none)

/-- The concrete keyword-mode results of `hybridSvcW`. -/
def kwModeResW : SearchResults :=
  runOk (hybridSvcW.search "q" Mode.keyword 10 "titleCreatorYear" "-attachment" none)

/-- Concrete keyword list for the RRF accumulation witness. -/
def kwListW : SearchResults :=
  { query := "q", total := 2, count := 2, items := [itemW "A", itemW "B"], has_more := false }

/-- Concrete semantic list for the RRF accumulation witness: `A` sits at
semantic rank 2 while holding keyword rank 1. -/
def semListW : SearchResults :=
  { query := "q", total := 2, count := 2, items := [itemW "S", itemW "A"], has_more := false }

/-- The concrete fused list of the RRF accumulation witness. -/
def fusedW : List SearchResultItem := rrfFusion 60 kwListW (some semListW) 5

/-- The fused record of item `A` (keyword rank 1, semantic rank 2) in
`fusedW`. -/
def fusedAW : SearchResultItem :=
  { key := "A", title := "A",
    keyword_score := some (1 / 61), semantic_score := some (1 / 62),
    relevance_score := some (1 / 61 + 1 / 62), rank := none }

/-- The fused record of the semantic-only item `S` in `fusedW`. -/
def fusedSW : SearchResultItem :=
  { key := "S", title := "S",
    semantic_score := some (1 / 61), relevance_score := some (1 / 61) }

/-- The fused record of the keyword-only item `B` in `fusedW`. -/
def fusedBW : SearchResultItem :=
  { key := "B", title := "B",
    keyword_score := some (1 / 62), relevance_score := some (1 / 62) }

/-- Concrete keyword list `[A, B, C]` of the fusion-union example. -/
def kwListC5 : SearchResults :=
  { query := "q", total := 3, count := 3,
    items := [itemW "A", itemW "B", itemW "C"], has_more := false }

/-- Concrete semantic list `[B, A, D]` of the fusion-union example. -/
def semListC5 : SearchResults :=
  { query := "q", total := 3, count := 3,
    items := [itemW "B", itemW "A", itemW "D"], has_more := false }

/-- The keyword-phase accumulator entries produced by `_rrf_fusion` on a
list of items with pairwise-distinct keys, ranks enumerated from `r`. -/
def kwEnum (k : Int) : Nat → List SearchResultItem → List (String × ScoreData)
  | _, [] => []
  | r, it :: rest =>
      (it.key, ⟨it, 1 / ((k : ℚ) + r), 0, some r, none⟩) :: kwEnum k (r + 1) rest

/-- Concrete semantic collaborator raising an exception that is not a
`SemanticSearchServiceError`. -/
def semCollabBoom : String → Nat → Except Exc (List SemanticHit) :=
  fun _ _ => Except.error (Exc.otherError "boom")

/-- Concrete hybrid service whose semantic collaborator raises a
non-`SemanticSearchServiceError` exception. -/
def hybridSvcBoom : HybridSearchService :=
  { keyword_search := ⟨clientW [itemW "A"]⟩, semantic_search := some semCollabBoom }

/-- Concrete semantic collaborator raising `SemanticSearchServiceError` on
every call. -/
def semCollabFail : String → Nat → Except Exc (List SemanticHit) :=
  fun _ _ => Except.error (Exc.semanticSearchServiceError "ChromaDB error")

/-- Concrete hybrid service whose semantic collaborator always raises
`SemanticSearchServiceError`. -/
def hybridSvcFail : HybridSearchService :=
  { keyword_search := ⟨clientW [itemW "A"]⟩, semantic_search := some semCollabFail }

/-- The concrete in-call keyword fetch (limit `1 * 2`) of `hybridSvcFail`. -/
def kwFetchFailW : SearchResults :=
  runOk (hybridSvcFail.keywordSearchRun "q" (1 * 2) "titleCreatorYear" "-attachment" none)

/-- Concrete service for the tag-search counterexample: the upstream client
reports the same tag once as a dict and once as a plain string. -/
def tagSvcCexW : SearchService :=
  ⟨{ search_items := fun _ => Except.ok [],
     get_tags := Except.ok [TagRep.dict "ml", TagRep.str "ml"] }⟩

/-- Concrete semantic service whose vector store always accepts adds. -/
def vecStoreOkW : SemanticSearchService := ⟨⟨fun _ _ _ => Except.ok ()⟩⟩

/-- Concrete `add_items` input: one truthy key, one missing key, one empty
(falsy) key. -/
def addItemsW : List PyItem :=
  [ { key := some "A", title := some "T1", abstractNote := some "Abs" },
    { key := none, title := some "T2" },
    { key := some "", title := some "T3" } ]

theorem buildBatch_fst_eq_truthyKeys (items : List PyItem) :
    (buildBatch items).1 = truthyKeys items := by
  induction items with
  | nil => rfl
  | cons item rest ih =>
    cases hkey : item.key with
    | none => simp [buildBatch, truthyKeys, hkey, List.filterMap_cons] at ih ⊢; exact ih
    | some k =>
      by_cases hk : k = "" <;>
        simp [buildBatch, truthyKeys, hkey, hk, List.filterMap_cons] at ih ⊢ <;>
        exact ih

theorem normalizeTags_go (tags : List TagRep) (acc : List String) :
    tags.foldl
      (fun acc tag =>
        match tag with
        | TagRep.dict tagField => if tagField = "" then acc else acc ++ [tagField]
        | TagRep.str s => if s = "" then acc else acc ++ [s])
      acc = acc ++ tags.filterMap normalizeTag := by
  induction tags generalizing acc with
  | nil => simp
  | cons tag rest ih =>
    cases tag with
    | dict tagField =>
      by_cases h : tagField = "" <;>
        simp [List.foldl_cons, List.filterMap_cons, normalizeTag, h, ih]
    | str s =>
      by_cases h : s = "" <;>
        simp [List.foldl_cons, List.filterMap_cons, normalizeTag, h, ih]

theorem normalizeTags_eq_filterMap (tags : List TagRep) :
    normalizeTags tags = tags.filterMap normalizeTag := by
  simpa using normalizeTags_go tags []

/-- C7 counterexample: `search_tags` does not deduplicate.  With the query
`ml` and an upstream tag collection holding the tag name `ml` both as a dict
and as a plain string, the returned list contains `ml` twice, so it is not a
deduplicated list of tag names. -/
theorem search_tags_dup_cex :
    tagSvcCexW.search_tags "ml" 10 = Except.ok ["ml", "ml"]
    ∧ ¬ (["ml", "ml"] : List String).Nodup :=
  ⟨rfl, by decide⟩

/-- C7 (amended): for every query and upstream tag collection, `search_tags`
returns, in upstream order and without deduplication, the normalized tag
names (dict entries contribute their non-empty `tag` field, plain strings
contribute themselves when non-empty) whose lowercase form contains the
lowercase query as a substring, capped at the given limit. -/
theorem search_tags_filter_take (svc : SearchService) (query : String) (limit : Nat)
    (tags : List TagRep) (htags : svc.client.get_tags = Except.ok tags) :
    svc.search_tags query limit =
      Except.ok (((tags.filterMap normalizeTag).filter fun tag =>
        pyInStr (pyLower query) (pyLower tag)).take limit) := by
  unfold SearchService.search_tags
  rw [htags]
  simp [normalizeTags_eq_filterMap]

theorem search_tags_filter_take_witness :
    tagSvcCexW.search_tags "ML" 1 =
      Except.ok ((([TagRep.dict "ml", TagRep.str "ml"].filterMap normalizeTag).filter fun tag =>
        pyInStr (pyLower "ML") (pyLower tag)).take 1) :=
  search_tags_filter_take tagSvcCexW "ML" 1 [TagRep.dict "ml", TagRep.str "ml"] rfl

/-- C10: `add_items` (with a vector store that accepts adds) skips items
lacking a truthy `key` field and returns the number of items actually
submitted, the ones with truthy keys; when the input list is empty or no
item has a truthy key it returns 0 with an empty invocation trace, i.e.
without invoking the vector store at all. -/
theorem add_items_count_skip (svc : SemanticSearchService) (items : List PyItem)
    (hok : ∀ ids docs metas, svc.collection.add ids docs metas = Except.ok ()) :
    (svc.add_items items).1 = Except.ok (truthyKeys items).length
    ∧ (truthyKeys items = [] → svc.add_items items = (Except.ok 0, [])) := by
  have hb := buildBatch_fst_eq_truthyKeys items
  by_cases hempty : items = []
  · subst hempty
    exact ⟨rfl, fun _ => rfl⟩
  · simp only [SemanticSearchService.add_items, if_neg hempty, hok, hb]
    by_cases hkeys : truthyKeys items = []
    · simp [hkeys]
    · simp [hkeys]

theorem add_items_count_skip_witness :
    (vecStoreOkW.add_items addItemsW).1 = Except.ok (truthyKeys addItemsW).length
    ∧ (truthyKeys addItemsW = [] → vecStoreOkW.add_items addItemsW = (Except.ok 0, [])) :=
  add_items_count_skip vecStoreOkW addItemsW (fun _ _ _ => rfl)

theorem wrapSearchError_eq_ok {r : Except Exc SearchResults} {res : SearchResults} :
    wrapSearchError r = Except.ok res ↔ r = Except.ok res := by
  constructor
  · intro h
    cases r with
    | ok v => simpa [wrapSearchError] using h
    | error e => cases e <;> simp [wrapSearchError] at h
  · intro h
    subst h
    rfl

theorem mapWithRank_length {α β : Type} (f : Nat → α → β) (r : Nat) (l : List α) :
    (mapWithRank f r l).length = l.length := by
  induction l generalizing r with
  | nil => rfl
  | cons x xs ih => simp [mapWithRank, ih]

theorem mapWithRank_get {α β : Type} (f : Nat → α → β) (r i : Nat) (l : List α)
    (hi : i < (mapWithRank f r l).length) (hl : i < l.length) :
    (mapWithRank f r l).get ⟨i, hi⟩ = f (r + i) (l.get ⟨i, hl⟩) := by
  induction l generalizing r i with
  | nil => exact absurd hl (Nat.not_lt_zero i)
  | cons x xs ih =>
    cases i with
    | zero => simp [mapWithRank]
    | succ j =>
      have hj : j < (mapWithRank f (r + 1) xs).length := by
        simpa [mapWithRank] using hi
      have hjl : j < xs.length := Nat.lt_of_succ_lt_succ hl
      have hrec := ih (r + 1) j hj hjl
      have hcast : (mapWithRank f r (x :: xs)).get ⟨j + 1, hi⟩
          = (mapWithRank f (r + 1) xs).get ⟨j, hj⟩ := rfl
      rw [hcast, hrec]
      have : r + 1 + j = r + (j + 1) := by omega
      rw [this]
      rfl

theorem mem_mapWithRank {α β : Type} (f : Nat → α → β) (r : Nat) (l : List α) (y : β)
    (hy : y ∈ mapWithRank f r l) : ∃ j a, r ≤ j ∧ a ∈ l ∧ y = f j a := by
  induction l generalizing r with
  | nil => cases hy
  | cons x xs ih =>
    simp only [mapWithRank, List.mem_cons] at hy
    rcases hy with h | h
    · exact ⟨r, x, le_refl r, List.mem_cons_self x xs, h⟩
    · obtain ⟨j, a, hj, ha, he⟩ := ih (r + 1) h
      exact ⟨j, a, Nat.le_of_succ_le hj, List.mem_cons_of_mem x ha, he⟩

theorem dictFind_append (key : String) (l1 l2 : List (String × ScoreData)) :
    dictFind key (l1 ++ l2)
      = match dictFind key l1 with
        | some d => some d
        | none => dictFind key l2 := by
  induction l1 with
  | nil => simp [dictFind]
  | cons p rest ih =>
    by_cases hp : p.1 = key
    · simp [dictFind, hp]
    · simp [dictFind, hp, ih]

theorem dictFind_dictUpdate_self (key : String) (f : ScoreData → ScoreData)
    (l : List (String × ScoreData)) :
    dictFind key (dictUpdate key f l) = (dictFind key l).map f := by
  induction l with
  | nil => rfl
  | cons p rest ih =>
    by_cases hp : p.1 = key
    · simp [dictFind, dictUpdate, hp]
    · simp [dictFind, dictUpdate, hp, ih]

theorem dictFind_dictUpdate_ne (key key' : String) (hne : key' ≠ key)
    (f : ScoreData → ScoreData) (l : List (String × ScoreData)) :
    dictFind key' (dictUpdate key f l) = dictFind key' l := by
  induction l with
  | nil => rfl
  | cons p rest ih =>
    by_cases hp : p.1 = key
    · have hq : ¬ p.1 = key' := by
        rw [hp]
        exact fun h => hne h.symm
      simp [dictFind, dictUpdate, hp, hq, hne, Ne.symm hne, ih]
    · by_cases hq : p.1 = key'
      · simp [dictFind, dictUpdate, hp, hq, hne, Ne.symm hne]
      · simp [dictFind, dictUpdate, hp, hq, hne, Ne.symm hne, ih]

theorem dictUpdate_of_find_none (key : String) (f : ScoreData → ScoreData)
    (l : List (String × ScoreData)) (h : dictFind key l = none) :
    dictUpdate key f l = l := by
  induction l with
  | nil => rfl
  | cons p rest ih =>
    by_cases hp : p.1 = key
    · simp [dictFind, hp] at h
    · simp only [dictFind, if_neg hp] at h
      simp [dictUpdate, hp, ih h]

theorem map_fst_dictUpdate (key : String) (f : ScoreData → ScoreData)
    (l : List (String × ScoreData)) :
    (dictUpdate key f l).map Prod.fst = l.map Prod.fst := by
  induction l with
  | nil => rfl
  | cons p rest ih =>
    by_cases hp : p.1 = key <;> simp [dictUpdate, hp, ih]

theorem dictFind_eq_none_iff (key : String) (l : List (String × ScoreData)) :
    dictFind key l = none ↔ key ∉ l.map Prod.fst := by
  induction l with
  | nil => simp [dictFind]
  | cons p rest ih =>
    by_cases hp : p.1 = key
    · simp [dictFind, hp]
    · simp [dictFind, hp, Ne.symm hp, ih]

theorem dictFind_of_mem_nodup (l : List (String × ScoreData)) (key : String) (d : ScoreData)
    (hnd : (l.map Prod.fst).Nodup) (hmem : (key, d) ∈ l) : dictFind key l = some d := by
  induction l with
  | nil => cases hmem
  | cons p rest ih =>
    rcases List.mem_cons.mp hmem with h | h
    · rw [← h]
      simp [dictFind]
    · have hkmem : key ∈ rest.map Prod.fst := by
        have := List.mem_map_of_mem Prod.fst h
        simpa using this
      simp only [List.map_cons, List.nodup_cons] at hnd
      have hp : ¬ p.1 = key := fun he => hnd.1 (he ▸ hkmem)
      simp [dictFind, hp, ih hnd.2 h]

theorem mem_dictUpdate (key : String) (f : ScoreData → ScoreData)
    (l : List (String × ScoreData)) (p : String × ScoreData) (hp : p ∈ dictUpdate key f l) :
    ∃ q ∈ l, p.1 = q.1 ∧ (p.2 = q.2 ∨ p.2 = f q.2) := by
  induction l with
  | nil => cases hp
  | cons q rest ih =>
    by_cases hq : q.1 = key
    · simp only [dictUpdate, if_pos hq, List.mem_cons] at hp
      rcases hp with h | h
      · exact ⟨q, List.mem_cons_self q rest, by simp [h], Or.inr (by simp [h])⟩
      · obtain ⟨q', hq', h1, h2⟩ := ih h
        exact ⟨q', List.mem_cons_of_mem q hq', h1, h2⟩
    · simp only [dictUpdate, if_neg hq, List.mem_cons] at hp
      rcases hp with h | h
      · exact ⟨q, List.mem_cons_self q rest, by simp [h], Or.inl (by simp [h])⟩
      · obtain ⟨q', hq', h1, h2⟩ := ih h
        exact ⟨q', List.mem_cons_of_mem q hq', h1, h2⟩

theorem item_key_step_keyword (k : Int) (scores : List (String × ScoreData)) (r : Nat)
    (item : SearchResultItem) (hinv : ∀ p ∈ scores, (p.2).item.key = p.1) :
    ∀ p ∈ rrfKeywordStep k scores r item, (p.2).item.key = p.1 := by
  intro p hp
  simp only [rrfKeywordStep] at hp
  obtain ⟨q, hq, h1, h2⟩ := mem_dictUpdate _ _ _ p hp
  have hqitem : (q.2).item.key = q.1 := by
    by_cases hpres : (dictFind item.key scores).isSome
    · rw [if_pos hpres] at hq
      exact hinv q hq
    · rw [if_neg hpres] at hq
      rcases List.mem_append.mp hq with h | h
      · exact hinv q h
      · have : q = (item.key, ⟨item, 0, 0, some r, none⟩) := by simpa using h
        rw [this]
  rcases h2 with h2 | h2 <;> rw [h2, h1] <;> exact hqitem

theorem item_key_step_semantic (k : Int) (scores : List (String × ScoreData)) (r : Nat)
    (item : SearchResultItem) (hinv : ∀ p ∈ scores, (p.2).item.key = p.1) :
    ∀ p ∈ rrfSemanticStep k scores r item, (p.2).item.key = p.1 := by
  intro p hp
  simp only [rrfSemanticStep] at hp
  obtain ⟨q, hq, h1, h2⟩ := mem_dictUpdate _ _ _ p hp
  have hqitem : (q.2).item.key = q.1 := by
    by_cases hpres : (dictFind item.key scores).isSome
    · rw [if_pos hpres] at hq
      exact hinv q hq
    · rw [if_neg hpres] at hq
      rcases List.mem_append.mp hq with h | h
      · exact hinv q h
      · have : q = (item.key, ⟨item, 0, 0, none, some r⟩) := by simpa using h
        rw [this]
  rcases h2 with h2 | h2 <;> rw [h2, h1] <;> exact hqitem

theorem item_key_process_keyword (k : Int) (items : List SearchResultItem)
    (scores : List (String × ScoreData)) (r : Nat)
    (hinv : ∀ p ∈ scores, (p.2).item.key = p.1) :
    ∀ p ∈ rrfProcessKeyword k items scores r, (p.2).item.key = p.1 := by
  induction items generalizing scores r with
  | nil => simpa [rrfProcessKeyword] using hinv
  | cons item rest ih =>
    exact ih (rrfKeywordStep k scores r item) (r + 1)
      (item_key_step_keyword k scores r item hinv)

theorem item_key_process_semantic (k : Int) (items : List SearchResultItem)
    (scores : List (String × ScoreData)) (r : Nat)
    (hinv : ∀ p ∈ scores, (p.2).item.key = p.1) :
    ∀ p ∈ rrfProcessSemantic k items scores r, (p.2).item.key = p.1 := by
  induction items generalizing scores r with
  | nil => simpa [rrfProcessSemantic] using hinv
  | cons item rest ih =>
    exact ih (rrfSemanticStep k scores r item) (r + 1)
      (item_key_step_semantic k scores r item hinv)

theorem map_fst_step_keyword (k : Int) (scores : List (String × ScoreData)) (r : Nat)
    (item : SearchResultItem) :
    (rrfKeywordStep k scores r item).map Prod.fst
      = if item.key ∈ scores.map Prod.fst then scores.map Prod.fst
        else scores.map Prod.fst ++ [item.key] := by
  simp only [rrfKeywordStep]
  rw [map_fst_dictUpdate]
  by_cases hpres : (dictFind item.key scores).isSome
  · have hmem : item.key ∈ scores.map Prod.fst := by
      by_contra hno
      rw [← dictFind_eq_none_iff] at hno
      rw [hno] at hpres
      simp at hpres
    simp [hpres, hmem]
  · have hnone : dictFind item.key scores = none := Option.not_isSome_iff_eq_none.mp hpres
    have hno : item.key ∉ scores.map Prod.fst := (dictFind_eq_none_iff _ _).mp hnone
    simp [hpres, hno]

theorem map_fst_step_semantic (k : Int) (scores : List (String × ScoreData)) (r : Nat)
    (item : SearchResultItem) :
    (rrfSemanticStep k scores r item).map Prod.fst
      = if item.key ∈ scores.map Prod.fst then scores.map Prod.fst
        else scores.map Prod.fst ++ [item.key] := by
  simp only [rrfSemanticStep]
  rw [map_fst_dictUpdate]
  by_cases hpres : (dictFind item.key scores).isSome
  · have hmem : item.key ∈ scores.map Prod.fst := by
      by_contra hno
      rw [← dictFind_eq_none_iff] at hno
      rw [hno] at hpres
      simp at hpres
    simp [hpres, hmem]
  · have hnone : dictFind item.key scores = none := Option.not_isSome_iff_eq_none.mp hpres
    have hno : item.key ∉ scores.map Prod.fst := (dictFind_eq_none_iff _ _).mp hnone
    simp [hpres, hno]

theorem map_fst_process_keyword (k : Int) (items : List SearchResultItem)
    (scores : List (String × ScoreData)) (r : Nat) :
    (rrfProcessKeyword k items scores r).map Prod.fst
      = insertOrderKeys (scores.map Prod.fst) (items.map SearchResultItem.key) := by
  induction items generalizing scores r with
  | nil => rfl
  | cons item rest ih =>
    simp only [rrfProcessKeyword, List.map_cons, insertOrderKeys]
    rw [ih, map_fst_step_keyword]

theorem map_fst_process_semantic (k : Int) (items : List SearchResultItem)
    (scores : List (String × ScoreData)) (r : Nat) :
    (rrfProcessSemantic k items scores r).map Prod.fst
      = insertOrderKeys (scores.map Prod.fst) (items.map SearchResultItem.key) := by
  induction items generalizing scores r with
  | nil => rfl
  | cons item rest ih =>
    simp only [rrfProcessSemantic, List.map_cons, insertOrderKeys]
    rw [ih, map_fst_step_semantic]

theorem insertOrderKeys_append (acc l1 l2 : List String) :
    insertOrderKeys acc (l1 ++ l2) = insertOrderKeys (insertOrderKeys acc l1) l2 := by
  induction l1 generalizing acc with
  | nil => rfl
  | cons x xs ih => simp [insertOrderKeys, ih]

theorem mem_insertOrderKeys (acc l : List String) (key : String) :
    key ∈ insertOrderKeys acc l ↔ key ∈ acc ∨ key ∈ l := by
  induction l generalizing acc with
  | nil => simp [insertOrderKeys]
  | cons x xs ih =>
    simp only [insertOrderKeys, List.mem_cons]
    by_cases hx : x ∈ acc
    · rw [if_pos hx, ih]
      constructor
      · rintro (h | h)
        · exact Or.inl h
        · exact Or.inr (Or.inr h)
      · rintro (h | h | h)
        · exact Or.inl h
        · exact Or.inl (by rw [h]; exact hx)
        · exact Or.inr h
    · rw [if_neg hx, ih]
      simp only [List.mem_append, List.mem_singleton]
      constructor
      · rintro ((h | h) | h)
        · exact Or.inl h
        · exact Or.inr (Or.inl h)
        · exact Or.inr (Or.inr h)
      · rintro (h | h | h)
        · exact Or.inl (Or.inl h)
        · exact Or.inl (Or.inr h)
        · exact Or.inr h

theorem nodup_insertOrderKeys (acc l : List String) (hacc : acc.Nodup) :
    (insertOrderKeys acc l).Nodup := by
  induction l generalizing acc with
  | nil => exact hacc
  | cons x xs ih =>
    simp only [insertOrderKeys]
    by_cases hx : x ∈ acc
    · rw [if_pos hx]
      exact ih acc hacc
    · rw [if_neg hx]
      refine ih _ ?_
      simp [List.nodup_append, hacc, hx]

/-- C9: a semantic-mode search that succeeds returns a `SearchResults` whose
`has_more` flag is `False`, regardless of query, `top_k` and collaborator. -/
theorem semantic_mode_has_more_false (svc : HybridSearchService)
    (query keyword_mode item_type : String) (tags : Option (List String)) (top_k : Nat)
    (res : SearchResults)
    (h : svc.search query Mode.semantic top_k keyword_mode item_type tags = Except.ok res) :
    res.has_more = false := by
  simp only [HybridSearchService.search] at h
  rw [wrapSearchError_eq_ok] at h
  cases hs : svc.semantic_search with
  | none =>
    simp only [HybridSearchService.semanticSearchRun, hs] at h
    exact Except.noConfusion h
  | some collab =>
    simp only [HybridSearchService.semanticSearchRun, hs] at h
    cases hc : collab query top_k with
    | error e =>
      rw [hc] at h
      exact Except.noConfusion h
    | ok hits =>
      rw [hc] at h
      simp only [Except.ok.injEq] at h
      subst h
      rfl

theorem semantic_mode_has_more_false_witness : semResW.has_more = false :=
  semantic_mode_has_more_false hybridSvcW "q" "titleCreatorYear" "-attachment" none 10
    semResW rfl

/-- C8: for every hybrid-mode search that completes without error, the
`has_more` flag of the returned results equals the `has_more` flag of the
keyword results fetched inside that same call (at limit `top_k * 2`). -/
theorem hybrid_has_more_mirrors_keyword (svc : HybridSearchService)
    (query keyword_mode item_type : String) (tags : Option (List String)) (top_k : Nat)
    (res kres : SearchResults)
    (h : svc.search query Mode.hybrid top_k keyword_mode item_type tags = Except.ok res)
    (hk : svc.keywordSearchRun query (top_k * 2) keyword_mode item_type tags = Except.ok kres) :
    res.has_more = kres.has_more := by
  simp only [HybridSearchService.search] at h
  rw [wrapSearchError_eq_ok] at h
  simp only [HybridSearchService.hybridSearchRrf, hk] at h
  cases hs : svc.semantic_search with
  | none =>
    simp only [hs, Except.ok.injEq] at h
    subst h
    rfl
  | some collab =>
    simp only [hs] at h
    cases hr : svc.semanticSearchRun query (top_k * 2) with
    | ok sr =>
      rw [hr] at h
      simp only [Except.ok.injEq] at h
      subst h
      rfl
    | error e =>
      rw [hr] at h
      cases e with
      | semanticSearchServiceError m =>
        simp only [Except.ok.injEq] at h
        subst h
        rfl
      | zoteroClientError m => exact Except.noConfusion h
      | searchServiceError m => exact Except.noConfusion h
      | hybridSearchServiceError m => exact Except.noConfusion h
      | otherError m => exact Except.noConfusion h

theorem hybrid_has_more_mirrors_keyword_witness : hybridResW.has_more = kwFetchResW.has_more :=
  hybrid_has_more_mirrors_keyword hybridSvcW "q" "titleCreatorYear" "-attachment" none 10
    hybridResW kwFetchResW rfl rfl

/-- C4: with no semantic collaborator configured, a semantic-mode search
raises the hybrid service's error (class `HybridSearchServiceError`) whose
message contains the substring `unavailable`, while a hybrid-mode search
with the same missing collaborator (and a keyword backend that answers) does
not raise. -/
theorem unavailable_fatal_only_in_semantic_mode (svc : HybridSearchService)
    (query keyword_mode item_type : String) (tags : Option (List String)) (top_k : Nat)
    (raw : List (Option SearchResultItem))
    (hnone : svc.semantic_search = none)
    (hclient : svc.keyword_search.client.search_items
        { query := query, mode := keyword_mode, item_type := item_type,
          tags := tags, limit := top_k * 2, offset := 0 } = Except.ok raw) :
    svc.search query Mode.semantic top_k keyword_mode item_type tags
      = Except.error
          (Exc.hybridSearchServiceError "Semantic search unavailable. Please install chromadb.")
    ∧ pyInStr "unavailable" "Semantic search unavailable. Please install chromadb." = true
    ∧ ∃ res, svc.search query Mode.hybrid top_k keyword_mode item_type tags = Except.ok res := by
  refine ⟨?_, by decide, ?_⟩
  · simp [HybridSearchService.search, HybridSearchService.semanticSearchRun, hnone,
      wrapSearchError]
  · simp [HybridSearchService.search, HybridSearchService.hybridSearchRrf,
      HybridSearchService.keywordSearchRun, SearchService.search_items, hclient, hnone,
      wrapSearchError]

theorem unavailable_fatal_only_in_semantic_mode_witness :
    hybridSvcNoSem.search "q" Mode.semantic 10 "titleCreatorYear" "-attachment" none
      = Except.error
          (Exc.hybridSearchServiceError "Semantic search unavailable. Please install chromadb.")
    ∧ pyInStr "unavailable" "Semantic search unavailable. Please install chromadb." = true
    ∧ ∃ res, hybridSvcNoSem.search "q" Mode.hybrid 10 "titleCreatorYear" "-attachment" none
        = Except.ok res :=
  unavailable_fatal_only_in_semantic_mode hybridSvcNoSem "q" "titleCreatorYear" "-attachment"
    none 10 [some (itemW "A"), some (itemW "B")] rfl rfl

/-- C6: for a keyword-mode search, the item at 0-based index `i` (1-based
position `i + 1`) of the returned list has `keyword_score = 1 / (i + 1)`,
`relevance_score` equal to that same value, and `rank = i + 1`. -/
theorem keyword_mode_inverse_rank (svc : HybridSearchService)
    (query keyword_mode item_type : String) (tags : Option (List String)) (top_k : Nat)
    (res : SearchResults)
    (h : svc.search query Mode.keyword top_k keyword_mode item_type tags = Except.ok res)
    (i : Nat) (hi : i < res.items.length) :
    (res.items.get ⟨i, hi⟩).keyword_score = some (1 / ((i + 1 : Nat) : ℚ))
    ∧ (res.items.get ⟨i, hi⟩).relevance_score = some (1 / ((i + 1 : Nat) : ℚ))
    ∧ (res.items.get ⟨i, hi⟩).rank = some (i + 1) := by
  simp only [HybridSearchService.search] at h
  rw [wrapSearchError_eq_ok] at h
  simp only [HybridSearchService.keywordSearchRun] at h
  cases hs : svc.keyword_search.search_items
      { query := query, mode := keyword_mode, item_type := item_type,
        tags := tags, limit := top_k, offset := 0 } with
  | error e =>
    rw [hs] at h
    exact Except.noConfusion h
  | ok results =>
    rw [hs] at h
    simp only [Except.ok.injEq] at h
    subst h
    have hl : i < results.items.length := by
      simpa [mapWithRank_length] using hi
    have hget := mapWithRank_get keywordAnnotate 1 i results.items hi hl
    have hcomm : 1 + i = i + 1 := Nat.add_comm 1 i
    rw [hcomm] at hget
    rw [show (({ results with items := mapWithRank keywordAnnotate 1 results.items }
        : SearchResults).items.get ⟨i, hi⟩)
      = (mapWithRank keywordAnnotate 1 results.items).get ⟨i, hi⟩ from rfl, hget]
    exact ⟨rfl, rfl, rfl⟩

theorem keyword_mode_inverse_rank_witness :
    (kwModeResW.items.get ⟨0, by decide⟩).keyword_score = some (1 / ((0 + 1 : Nat) : ℚ))
    ∧ (kwModeResW.items.get ⟨0, by decide⟩).relevance_score = some (1 / ((0 + 1 : Nat) : ℚ))
    ∧ (kwModeResW.items.get ⟨0, by decide⟩).rank = some (0 + 1) :=
  keyword_mode_inverse_rank hybridSvcW "q" "titleCreatorYear" "-attachment" none 10
    kwModeResW rfl 0 (by decide)

theorem curKw_step_keyword (k : Int) (scores : List (String × ScoreData)) (r : Nat)
    (item : SearchResultItem) (key : String) :
    curKw (rrfKeywordStep k scores r item) key
      = curKw scores key + (if item.key = key then 1 / ((k : ℚ) + r) else 0) := by
  by_cases hkey : item.key = key
  · subst hkey
    rw [if_pos rfl]
    simp only [rrfKeywordStep]
    by_cases hpres : (dictFind item.key scores).isSome
    · rw [if_pos hpres]
      unfold curKw
      rw [dictFind_dictUpdate_self]
      cases hfind : dictFind item.key scores with
      | none =>
        rw [hfind] at hpres
        simp at hpres
      | some d => simp
    · rw [if_neg hpres]
      have hnone : dictFind item.key scores = none := Option.not_isSome_iff_eq_none.mp hpres
      unfold curKw
      rw [dictFind_dictUpdate_self, dictFind_append, hnone]
      simp [dictFind]
  · rw [if_neg hkey]
    simp only [rrfKeywordStep]
    unfold curKw
    rw [dictFind_dictUpdate_ne item.key key (fun h => hkey h.symm)]
    by_cases hpres : (dictFind item.key scores).isSome
    · rw [if_pos hpres]
      simp
    · rw [if_neg hpres, dictFind_append]
      cases hfind : dictFind key scores with
      | none => simp [dictFind, hkey]
      | some d => simp

theorem curSem_step_keyword (k : Int) (scores : List (String × ScoreData)) (r : Nat)
    (item : SearchResultItem) (key : String) :
    curSem (rrfKeywordStep k scores r item) key = curSem scores key := by
  by_cases hkey : item.key = key
  · subst hkey
    simp only [rrfKeywordStep]
    by_cases hpres : (dictFind item.key scores).isSome
    · rw [if_pos hpres]
      unfold curSem
      rw [dictFind_dictUpdate_self]
      cases hfind : dictFind item.key scores with
      | none =>
        rw [hfind] at hpres
        simp at hpres
      | some d => simp
    · rw [if_neg hpres]
      have hnone : dictFind item.key scores = none := Option.not_isSome_iff_eq_none.mp hpres
      unfold curSem
      rw [dictFind_dictUpdate_self, dictFind_append, hnone]
      simp [dictFind]
  · simp only [rrfKeywordStep]
    unfold curSem
    rw [dictFind_dictUpdate_ne item.key key (fun h => hkey h.symm)]
    by_cases hpres : (dictFind item.key scores).isSome
    · rw [if_pos hpres]
    · rw [if_neg hpres, dictFind_append]
      cases hfind : dictFind key scores with
      | none => simp [dictFind, hkey]
      | some d => simp

theorem curSem_step_semantic (k : Int) (scores : List (String × ScoreData)) (r : Nat)
    (item : SearchResultItem) (key : String) :
    curSem (rrfSemanticStep k scores r item) key
      = curSem scores key + (if item.key = key then 1 / ((k : ℚ) + r) else 0) := by
  by_cases hkey : item.key = key
  · subst hkey
    rw [if_pos rfl]
    simp only [rrfSemanticStep]
    by_cases hpres : (dictFind item.key scores).isSome
    · rw [if_pos hpres]
      unfold curSem
      rw [dictFind_dictUpdate_self]
      cases hfind : dictFind item.key scores with
      | none =>
        rw [hfind] at hpres
        simp at hpres
      | some d => simp
    · rw [if_neg hpres]
      have hnone : dictFind item.key scores = none := Option.not_isSome_iff_eq_none.mp hpres
      unfold curSem
      rw [dictFind_dictUpdate_self, dictFind_append, hnone]
      simp [dictFind]
  · rw [if_neg hkey]
    simp only [rrfSemanticStep]
    unfold curSem
    rw [dictFind_dictUpdate_ne item.key key (fun h => hkey h.symm)]
    by_cases hpres : (dictFind item.key scores).isSome
    · rw [if_pos hpres]
      simp
    · rw [if_neg hpres, dictFind_append]
      cases hfind : dictFind key scores with
      | none => simp [dictFind, hkey]
      | some d => simp

theorem curKw_step_semantic (k : Int) (scores : List (String × ScoreData)) (r : Nat)
    (item : SearchResultItem) (key : String) :
    curKw (rrfSemanticStep k scores r item) key = curKw scores key := by
  by_cases hkey : item.key = key
  · subst hkey
    simp only [rrfSemanticStep]
    by_cases hpres : (dictFind item.key scores).isSome
    · rw [if_pos hpres]
      unfold curKw
      rw [dictFind_dictUpdate_self]
      cases hfind : dictFind item.key scores with
      | none =>
        rw [hfind] at hpres
        simp at hpres
      | some d => simp
    · rw [if_neg hpres]
      have hnone : dictFind item.key scores = none := Option.not_isSome_iff_eq_none.mp hpres
      unfold curKw
      rw [dictFind_dictUpdate_self, dictFind_append, hnone]
      simp [dictFind]
  · simp only [rrfSemanticStep]
    unfold curKw
    rw [dictFind_dictUpdate_ne item.key key (fun h => hkey h.symm)]
    by_cases hpres : (dictFind item.key scores).isSome
    · rw [if_pos hpres]
    · rw [if_neg hpres, dictFind_append]
      cases hfind : dictFind key scores with
      | none => simp [dictFind, hkey]
      | some d => simp

theorem curKw_process_keyword (k : Int) (items : List SearchResultItem)
    (scores : List (String × ScoreData)) (r : Nat) (key : String) :
    curKw (rrfProcessKeyword k items scores r) key
      = curKw scores key + rrfAccumFrom k r (items.map SearchResultItem.key) key := by
  induction items generalizing scores r with
  | nil => simp [rrfProcessKeyword, rrfAccumFrom]
  | cons item rest ih =>
    simp only [rrfProcessKeyword, List.map_cons, rrfAccumFrom]
    rw [ih, curKw_step_keyword]
    ring

theorem curSem_process_keyword (k : Int) (items : List SearchResultItem)
    (scores : List (String × ScoreData)) (r : Nat) (key : String) :
    curSem (rrfProcessKeyword k items scores r) key = curSem scores key := by
  induction items generalizing scores r with
  | nil => simp [rrfProcessKeyword]
  | cons item rest ih =>
    simp only [rrfProcessKeyword]
    rw [ih, curSem_step_keyword]

theorem curSem_process_semantic (k : Int) (items : List SearchResultItem)
    (scores : List (String × ScoreData)) (r : Nat) (key : String) :
    curSem (rrfProcessSemantic k items scores r) key
      = curSem scores key + rrfAccumFrom k r (items.map SearchResultItem.key) key := by
  induction items generalizing scores r with
  | nil => simp [rrfProcessSemantic, rrfAccumFrom]
  | cons item rest ih =>
    simp only [rrfProcessSemantic, List.map_cons, rrfAccumFrom]
    rw [ih, curSem_step_semantic]
    ring

theorem curKw_process_semantic (k : Int) (items : List SearchResultItem)
    (scores : List (String × ScoreData)) (r : Nat) (key : String) :
    curKw (rrfProcessSemantic k items scores r) key = curKw scores key := by
  induction items generalizing scores r with
  | nil => simp [rrfProcessSemantic]
  | cons item rest ih =>
    simp only [rrfProcessSemantic]
    rw [ih, curKw_step_semantic]

theorem rrfAccumFrom_nonneg (k : Int) (hk : 0 ≤ k) (r : Nat) (hr : 1 ≤ r)
    (keys : List String) (key : String) : 0 ≤ rrfAccumFrom k r keys key := by
  induction keys generalizing r with
  | nil => simp [rrfAccumFrom]
  | cons x xs ih =>
    simp only [rrfAccumFrom]
    have h1 : (0 : ℚ) < (k : ℚ) + r := by
      have hk2 : (0 : ℚ) ≤ (k : ℚ) := by exact_mod_cast hk
      have hr2 : (1 : ℚ) ≤ (r : ℚ) := by exact_mod_cast hr
      linarith
    have hterm : (0 : ℚ) ≤ (if x = key then 1 / ((k : ℚ) + r) else 0) := by
      split
      · exact le_of_lt (one_div_pos.mpr h1)
      · exact le_refl 0
    have hrest := ih (r + 1) (by omega)
    linarith

theorem rrfAccumFrom_pos (k : Int) (hk : 0 ≤ k) (r : Nat) (hr : 1 ≤ r)
    (keys : List String) (key : String) (hmem : key ∈ keys) :
    0 < rrfAccumFrom k r keys key := by
  induction keys generalizing r with
  | nil => cases hmem
  | cons x xs ih =>
    simp only [rrfAccumFrom]
    have h1 : (0 : ℚ) < (k : ℚ) + r := by
      have hk2 : (0 : ℚ) ≤ (k : ℚ) := by exact_mod_cast hk
      have hr2 : (1 : ℚ) ≤ (r : ℚ) := by exact_mod_cast hr
      linarith
    rcases List.mem_cons.mp hmem with h | h
    · rw [if_pos h.symm]
      have h2 : (0 : ℚ) < 1 / ((k : ℚ) + r) := one_div_pos.mpr h1
      have h3 := rrfAccumFrom_nonneg k hk (r + 1) (by omega) xs key
      linarith
    · have h2 := ih (r + 1) (by omega) h
      have hterm : (0 : ℚ) ≤ (if x = key then 1 / ((k : ℚ) + r) else 0) := by
        split
        · exact le_of_lt (one_div_pos.mpr h1)
        · exact le_refl 0
      linarith

theorem rrfAccumFrom_of_not_mem (k : Int) (r : Nat) (keys : List String) (key : String)
    (hmem : key ∉ keys) : rrfAccumFrom k r keys key = 0 := by
  induction keys generalizing r with
  | nil => rfl
  | cons x xs ih =>
    simp only [List.mem_cons, not_or] at hmem
    have hx : ¬ x = key := fun h => hmem.1 h.symm
    simp only [rrfAccumFrom, if_neg hx]
    rw [ih (r + 1) hmem.2]
    simp

theorem insertDescStable_perm (x : SearchResultItem) (l : List SearchResultItem) :
    (insertDescStable x l).Perm (x :: l) := by
  induction l with
  | nil => exact List.Perm.refl _
  | cons y ys ih =>
    simp only [insertDescStable]
    by_cases h : relKey y < relKey x
    · rw [if_pos h]
    · rw [if_neg h]
      exact (ih.cons y).trans (List.Perm.swap x y ys)

theorem sortDescStable_go_perm (l : List SearchResultItem) :
    ∀ acc, (l.foldl (fun a x => insertDescStable x a) acc).Perm (acc ++ l) := by
  induction l with
  | nil => intro acc; simp
  | cons x xs ih =>
    intro acc
    simp only [List.foldl_cons]
    have h1 : (insertDescStable x acc).Perm (acc ++ [x]) :=
      (insertDescStable_perm x acc).trans (List.perm_append_singleton x acc).symm
    have h2 := ih (insertDescStable x acc)
    refine h2.trans ?_
    have h3 : (insertDescStable x acc ++ xs).Perm ((acc ++ [x]) ++ xs) :=
      h1.append_right xs
    refine h3.trans ?_
    rw [List.append_assoc]
    exact List.Perm.refl _

theorem sortDescStable_perm (l : List SearchResultItem) : (sortDescStable l).Perm l := by
  simpa [sortDescStable] using sortDescStable_go_perm l []

theorem insertDescStable_append_of_le (x : SearchResultItem) (l : List SearchResultItem)
    (h : ∀ y ∈ l, relKey x ≤ relKey y) : insertDescStable x l = l ++ [x] := by
  induction l with
  | nil => rfl
  | cons y ys ih =>
    have hy : ¬ relKey y < relKey x := not_lt.mpr (h y (List.mem_cons_self y ys))
    simp only [insertDescStable, if_neg hy]
    rw [ih (fun z hz => h z (List.mem_cons_of_mem y hz))]
    rfl

theorem sortDescStable_go_sorted (l : List SearchResultItem) :
    ∀ acc, l.Pairwise (fun a b => relKey b ≤ relKey a) →
      (∀ y ∈ acc, ∀ z ∈ l, relKey z ≤ relKey y) →
      l.foldl (fun a x => insertDescStable x a) acc = acc ++ l := by
  induction l with
  | nil =>
    intro acc _ _
    simp
  | cons x xs ih =>
    intro acc hsort hacc
    simp only [List.foldl_cons]
    have hpair := List.pairwise_cons.mp hsort
    have hins : insertDescStable x acc = acc ++ [x] :=
      insertDescStable_append_of_le x acc
        (fun y hy => hacc y hy x (List.mem_cons_self x xs))
    have hnew : ∀ y ∈ acc ++ [x], ∀ z ∈ xs, relKey z ≤ relKey y := by
      intro y hy z hz
      rcases List.mem_append.mp hy with h | h
      · exact hacc y h z (List.mem_cons_of_mem x hz)
      · have hyx : y = x := by simpa using h
        rw [hyx]
        exact hpair.1 z hz
    rw [hins, ih (acc ++ [x]) hpair.2 hnew, List.append_assoc]
    rfl

theorem sortDescStable_of_sorted (l : List SearchResultItem)
    (hsort : l.Pairwise fun a b => relKey b ≤ relKey a) : sortDescStable l = l := by
  have h := sortDescStable_go_sorted l [] hsort (by intro y hy; cases hy)
  simpa [sortDescStable] using h

theorem mem_rrfFusion_some (k : Int) (kw sem : SearchResults) (top_k : Nat)
    (item : SearchResultItem) (hmem : item ∈ rrfFusion k kw (some sem) top_k) :
    ∃ K : String,
      item.key = K
      ∧ item.keyword_score
          = (if 0 < rrfAccum k (kw.items.map SearchResultItem.key) K
             then some (rrfAccum k (kw.items.map SearchResultItem.key) K) else none)
      ∧ item.semantic_score
          = (if 0 < rrfAccum k (sem.items.map SearchResultItem.key) K
             then some (rrfAccum k (sem.items.map SearchResultItem.key) K) else none)
      ∧ item.relevance_score
          = some (rrfAccum k (kw.items.map SearchResultItem.key) K
              + rrfAccum k (sem.items.map SearchResultItem.key) K) := by
  simp only [rrfFusion] at hmem
  have h1 := List.mem_of_mem_take hmem
  have h2 := (sortDescStable_perm _).mem_iff.mp h1
  obtain ⟨p, hp, hitem⟩ := List.mem_map.mp h2
  have hinv : ∀ q ∈ rrfProcessSemantic k sem.items (rrfProcessKeyword k kw.items [] 1) 1,
      (q.2).item.key = q.1 :=
    item_key_process_semantic k sem.items _ 1
      (item_key_process_keyword k kw.items [] 1 (by intro q hq; cases hq))
  have hnd : ((rrfProcessSemantic k sem.items
      (rrfProcessKeyword k kw.items [] 1) 1).map Prod.fst).Nodup := by
    rw [map_fst_process_semantic, map_fst_process_keyword]
    exact nodup_insertOrderKeys _ _ (nodup_insertOrderKeys _ _ List.nodup_nil)
  have hfind : dictFind p.1 (rrfProcessSemantic k sem.items
      (rrfProcessKeyword k kw.items [] 1) 1) = some p.2 :=
    dictFind_of_mem_nodup _ p.1 p.2 hnd hp
  have hkwval : p.2.keyword_score = rrfAccum k (kw.items.map SearchResultItem.key) p.1 := by
    have hcur : curKw (rrfProcessSemantic k sem.items
        (rrfProcessKeyword k kw.items [] 1) 1) p.1 = p.2.keyword_score := by
      unfold curKw
      rw [hfind]
    rw [← hcur, curKw_process_semantic, curKw_process_keyword]
    simp [curKw, dictFind, rrfAccum]
  have hsemval : p.2.semantic_score = rrfAccum k (sem.items.map SearchResultItem.key) p.1 := by
    have hcur : curSem (rrfProcessSemantic k sem.items
        (rrfProcessKeyword k kw.items [] 1) 1) p.1 = p.2.semantic_score := by
      unfold curSem
      rw [hfind]
    rw [← hcur, curSem_process_semantic, curSem_process_keyword]
    simp [curSem, dictFind, rrfAccum]
  refine ⟨p.1, ?_, ?_, ?_, ?_⟩
  · rw [← hitem]
    exact hinv p hp
  · rw [← hitem]
    show (if 0 < p.2.keyword_score then some p.2.keyword_score else none) = _
    rw [hkwval]
  · rw [← hitem]
    show (if 0 < p.2.semantic_score then some p.2.semantic_score else none) = _
    rw [hsemval]
  · rw [← hitem]
    show some (p.2.keyword_score + p.2.semantic_score) = _
    rw [hkwval, hsemval]

/-- C1: in the RRF fusion with `k = 60`, every fused item's relevance score
is the sum of its keyword and semantic accumulators, where each input list
contributes `1 / (60 + r)` at each of its 1-based ranks `r` holding the
item's key; in particular an item at keyword rank 1 and semantic rank 2 (and
nowhere else) has relevance score `1 / (60 + 1) + 1 / (60 + 2)`. -/
theorem rrf_accumulation_relevance (kw sem : SearchResults) (top_k : Nat)
    (item : SearchResultItem)
    (hmem : item ∈ rrfFusion 60 kw (some sem) top_k) :
    item.relevance_score
      = some (rrfAccum 60 (kw.items.map SearchResultItem.key) item.key
          + rrfAccum 60 (sem.items.map SearchResultItem.key) item.key)
    ∧ (∀ krest s1 srest,
        kw.items.map SearchResultItem.key = item.key :: krest →
        item.key ∉ krest →
        sem.items.map SearchResultItem.key = s1 :: item.key :: srest →
        s1 ≠ item.key →
        item.key ∉ srest →
        item.relevance_score = some (1 / ((60 : ℚ) + 1) + 1 / ((60 : ℚ) + 2))) := by
  obtain ⟨K, hkey, _, _, hrel⟩ := mem_rrfFusion_some 60 kw sem top_k item hmem
  subst hkey
  refine ⟨hrel, ?_⟩
  intro krest s1 srest hkw hnk hsem hs1 hns
  have hA : rrfAccum 60 (item.key :: krest) item.key = 1 / ((60 : ℚ) + 1) := by
    simp only [rrfAccum, rrfAccumFrom, if_pos rfl]
    rw [rrfAccumFrom_of_not_mem 60 (1 + 1) krest item.key hnk]
    push_cast
    norm_num
  have hB : rrfAccum 60 (s1 :: item.key :: srest) item.key = 1 / ((60 : ℚ) + 2) := by
    simp only [rrfAccum, rrfAccumFrom]
    rw [if_neg hs1, rrfAccumFrom_of_not_mem 60 (1 + 1 + 1) srest item.key hns]
    push_cast
    norm_num
  rw [hrel, hkw, hsem, hA, hB]

theorem rrf_accumulation_relevance_witness :
    fusedAW.relevance_score
      = some (rrfAccum 60 (kwListW.items.map SearchResultItem.key) fusedAW.key
          + rrfAccum 60 (semListW.items.map SearchResultItem.key) fusedAW.key)
    ∧ (∀ krest s1 srest,
        kwListW.items.map SearchResultItem.key = fusedAW.key :: krest →
        fusedAW.key ∉ krest →
        semListW.items.map SearchResultItem.key = s1 :: fusedAW.key :: srest →
        s1 ≠ fusedAW.key →
        fusedAW.key ∉ srest →
        fusedAW.relevance_score = some (1 / ((60 : ℚ) + 1) + 1 / ((60 : ℚ) + 2))) :=
  rrf_accumulation_relevance kwListW semListW 5 fusedAW
    (by
      have hW : fusedW = [fusedAW, fusedSW, fusedBW] := by with_unfolding_all rfl
      show fusedAW ∈ fusedW
      rw [hW]
      exact List.mem_cons_self fusedAW [fusedSW, fusedBW])

/-- C5: for a nonnegative RRF constant, whenever `top_k` is at least the
number of unique keys the fusion output is a permutation of the union of
the two input key lists in first-appearance order, without duplicate keys;
and in every case a fused item's `keyword_score` (resp. `semantic_score`)
is null exactly when its key does not appear in the keyword (resp.
semantic) input list. -/
theorem rrf_fusion_union_null_scores (k : Int) (hk : 0 ≤ k) (kw sem : SearchResults)
    (top_k : Nat) :
    ((insertOrderKeys [] (kw.items.map SearchResultItem.key
        ++ sem.items.map SearchResultItem.key)).length ≤ top_k →
      ((rrfFusion k kw (some sem) top_k).map SearchResultItem.key).Perm
          (insertOrderKeys [] (kw.items.map SearchResultItem.key
            ++ sem.items.map SearchResultItem.key))
      ∧ ((rrfFusion k kw (some sem) top_k).map SearchResultItem.key).Nodup)
    ∧ ∀ item ∈ rrfFusion k kw (some sem) top_k,
        (item.keyword_score = none ↔ item.key ∉ kw.items.map SearchResultItem.key)
        ∧ (item.semantic_score = none ↔ item.key ∉ sem.items.map SearchResultItem.key) := by
  refine ⟨?_, ?_⟩
  · intro htop
    have hinv : ∀ q ∈ rrfProcessSemantic k sem.items (rrfProcessKeyword k kw.items [] 1) 1,
        (q.2).item.key = q.1 :=
      item_key_process_semantic k sem.items _ 1
        (item_key_process_keyword k kw.items [] 1 (by intro q hq; cases hq))
    have hfst : (rrfProcessSemantic k sem.items
          (rrfProcessKeyword k kw.items [] 1) 1).map Prod.fst
        = insertOrderKeys [] (kw.items.map SearchResultItem.key
            ++ sem.items.map SearchResultItem.key) := by
      rw [map_fst_process_semantic, map_fst_process_keyword, insertOrderKeys_append]
      rfl
    have hmapkey : ((rrfProcessSemantic k sem.items
          (rrfProcessKeyword k kw.items [] 1) 1).map fun p => finalizeEntry p.2).map
            SearchResultItem.key
        = (rrfProcessSemantic k sem.items
            (rrfProcessKeyword k kw.items [] 1) 1).map Prod.fst := by
      rw [List.map_map]
      exact List.map_congr_left (fun p hp => hinv p hp)
    have hlen : (sortDescStable ((rrfProcessSemantic k sem.items
          (rrfProcessKeyword k kw.items [] 1) 1).map fun p => finalizeEntry p.2)).length
        ≤ top_k := by
      rw [(sortDescStable_perm _).length_eq, List.length_map]
      have := congrArg List.length hfst
      rw [List.length_map] at this
      omega
    have htake : (sortDescStable ((rrfProcessSemantic k sem.items
          (rrfProcessKeyword k kw.items [] 1) 1).map fun p => finalizeEntry p.2)).take top_k
        = sortDescStable ((rrfProcessSemantic k sem.items
            (rrfProcessKeyword k kw.items [] 1) 1).map fun p => finalizeEntry p.2) :=
      List.take_of_length_le hlen
    have hperm : ((rrfFusion k kw (some sem) top_k).map SearchResultItem.key).Perm
        (insertOrderKeys [] (kw.items.map SearchResultItem.key
          ++ sem.items.map SearchResultItem.key)) := by
      simp only [rrfFusion]
      rw [htake, ← hfst, ← hmapkey]
      exact (sortDescStable_perm _).map SearchResultItem.key
    exact ⟨hperm, hperm.nodup_iff.mpr (nodup_insertOrderKeys _ _ List.nodup_nil)⟩
  · intro item hmem
    obtain ⟨K, hkey, hkw_sc, hsem_sc, _⟩ := mem_rrfFusion_some k kw sem top_k item hmem
    subst hkey
    constructor
    · by_cases hmemk : item.key ∈ kw.items.map SearchResultItem.key
      · have hpos : 0 < rrfAccum k (kw.items.map SearchResultItem.key) item.key :=
          rrfAccumFrom_pos k hk 1 (le_refl 1) _ item.key hmemk
        rw [hkw_sc, if_pos hpos]
        simp [hmemk]
      · have hzero : rrfAccum k (kw.items.map SearchResultItem.key) item.key = 0 :=
          rrfAccumFrom_of_not_mem k 1 _ item.key hmemk
        rw [hkw_sc, hzero]
        simp [hmemk]
    · by_cases hmems : item.key ∈ sem.items.map SearchResultItem.key
      · have hpos : 0 < rrfAccum k (sem.items.map SearchResultItem.key) item.key :=
          rrfAccumFrom_pos k hk 1 (le_refl 1) _ item.key hmems
        rw [hsem_sc, if_pos hpos]
        simp [hmems]
      · have hzero : rrfAccum k (sem.items.map SearchResultItem.key) item.key = 0 :=
          rrfAccumFrom_of_not_mem k 1 _ item.key hmems
        rw [hsem_sc, hzero]
        simp [hmems]

/-- C3 counterexample: with a semantic collaborator raising an exception
that is not a `SemanticSearchServiceError`, the hybrid-mode search surfaces
that very exception to the caller instead of swallowing it — only
`SemanticSearchServiceError` is suppressed (hybrid_search.py line 240). -/
theorem semantic_exception_surfaced_cex :
    hybridSvcBoom.search "q" Mode.hybrid 1 "titleCreatorYear" "-attachment" none
      = Except.error (Exc.otherError "boom") := by
  with_unfolding_all rfl

/-- C3 (amended): in hybrid mode, an exception of class
`SemanticSearchServiceError` — the class every failure of the repository's
own `SemanticSearchService.search` is wrapped into — raised by the semantic
sub-fetch is swallowed and the search proceeds exactly as if no semantic
collaborator were configured (keyword-only fusion); exceptions of other
classes are not caught there. -/
theorem semantic_error_swallowed_keyword_only (svc : HybridSearchService)
    (collab : String → Nat → Except Exc (List SemanticHit))
    (query keyword_mode item_type : String) (tags : Option (List String)) (top_k : Nat)
    (m : String)
    (hc : svc.semantic_search = some collab)
    (hfail : collab query (top_k * 2) = Except.error (Exc.semanticSearchServiceError m)) :
    svc.search query Mode.hybrid top_k keyword_mode item_type tags
      = HybridSearchService.search
          { keyword_search := svc.keyword_search, semantic_search := none,
            rrf_k := svc.rrf_k }
          query Mode.hybrid top_k keyword_mode item_type tags := by
  simp only [HybridSearchService.search, HybridSearchService.hybridSearchRrf,
    HybridSearchService.keywordSearchRun, HybridSearchService.semanticSearchRun,
    hc, hfail]

theorem semantic_error_swallowed_keyword_only_witness :
    hybridSvcFail.search "q" Mode.hybrid 1 "titleCreatorYear" "-attachment" none
      = HybridSearchService.search
          { keyword_search := hybridSvcFail.keyword_search, semantic_search := none,
            rrf_k := hybridSvcFail.rrf_k }
          "q" Mode.hybrid 1 "titleCreatorYear" "-attachment" none :=
  semantic_error_swallowed_keyword_only hybridSvcFail semCollabFail "q" "titleCreatorYear"
    "-attachment" none 1 "ChromaDB error" rfl rfl

theorem dictUpdate_append (key : String) (f : ScoreData → ScoreData)
    (l1 l2 : List (String × ScoreData)) :
    dictUpdate key f (l1 ++ l2) = dictUpdate key f l1 ++ dictUpdate key f l2 := by
  induction l1 with
  | nil => rfl
  | cons p rest ih =>
    by_cases hp : p.1 = key <;> simp [dictUpdate, hp, ih]

theorem process_keyword_disjoint (k : Int) (items : List SearchResultItem)
    (scores : List (String × ScoreData)) (r : Nat)
    (hdis : ∀ it ∈ items, dictFind it.key scores = none)
    (hnd : (items.map SearchResultItem.key).Nodup) :
    rrfProcessKeyword k items scores r = scores ++ kwEnum k r items := by
  induction items generalizing scores r with
  | nil => simp [rrfProcessKeyword, kwEnum]
  | cons it rest ih =>
    simp only [rrfProcessKeyword, kwEnum]
    have hnone := hdis it (List.mem_cons_self it rest)
    simp only [List.map_cons, List.nodup_cons] at hnd
    have hstep : rrfKeywordStep k scores r it
        = scores ++ [(it.key, ⟨it, 1 / ((k : ℚ) + r), 0, some r, none⟩)] := by
      simp only [rrfKeywordStep, hnone]
      rw [if_neg (by simp)]
      rw [dictUpdate_append, dictUpdate_of_find_none it.key _ scores hnone]
      simp [dictUpdate]
    rw [hstep]
    have hdis2 : ∀ q ∈ rest, dictFind q.key
        (scores ++ [(it.key, ⟨it, 1 / ((k : ℚ) + r), 0, some r, none⟩)]) = none := by
      intro q hq
      rw [dictFind_append, hdis q (List.mem_cons_of_mem it hq)]
      have hne : ¬ it.key = q.key := by
        intro he
        exact hnd.1 (he ▸ List.mem_map_of_mem SearchResultItem.key hq)
      simp [dictFind, hne]
    rw [ih _ (r + 1) hdis2 hnd.2, List.append_assoc]
    rfl

theorem mapWithRank_take {α β : Type} (f : Nat → α → β) (r n : Nat) (l : List α) :
    (mapWithRank f r l).take n = mapWithRank f r (l.take n) := by
  induction l generalizing r n with
  | nil => simp [mapWithRank]
  | cons x xs ih =>
    cases n with
    | zero => simp [mapWithRank]
    | succ m => simp [mapWithRank, List.take_succ_cons, ih]

theorem mapWithRank_comp {α β γ : Type} (f : Nat → α → β) (g : Nat → β → γ) (r : Nat)
    (l : List α) :
    mapWithRank g r (mapWithRank f r l) = mapWithRank (fun i a => g i (f i a)) r l := by
  induction l generalizing r with
  | nil => rfl
  | cons x xs ih => simp [mapWithRank, ih]

theorem map_finalize_kwEnum (k : Int) (hk : 0 ≤ k) (r : Nat) (hr : 1 ≤ r)
    (items : List SearchResultItem) :
    (kwEnum k r items).map (fun p => finalizeEntry p.2)
      = mapWithRank (fun i it =>
          { it with keyword_score := some (1 / ((k : ℚ) + i)),
                    semantic_score := none,
                    relevance_score := some (1 / ((k : ℚ) + i)) }) r items := by
  induction items generalizing r with
  | nil => rfl
  | cons it rest ih =>
    simp only [kwEnum, List.map_cons, mapWithRank]
    rw [ih (r + 1) (by omega)]
    congr 1
    have h1 : (0 : ℚ) < (k : ℚ) + r := by
      have hk2 : (0 : ℚ) ≤ (k : ℚ) := by exact_mod_cast hk
      have hr2 : (1 : ℚ) ≤ (r : ℚ) := by exact_mod_cast hr
      linarith
    have hpos : 0 < 1 / ((k : ℚ) + r) := one_div_pos.mpr h1
    simp [finalizeEntry, hpos, h1, lt_irrefl]

theorem pairwise_fuse_desc (k : Int) (hk : 0 ≤ k) (items : List SearchResultItem)
    (r : Nat) (hr : 1 ≤ r) :
    (mapWithRank (fun i it =>
        { it with keyword_score := some (1 / ((k : ℚ) + i)),
                  semantic_score := none,
                  relevance_score := some (1 / ((k : ℚ) + i)) }) r items).Pairwise
      (fun a b => relKey b ≤ relKey a) := by
  induction items generalizing r with
  | nil => exact List.Pairwise.nil
  | cons it rest ih =>
    simp only [mapWithRank]
    refine List.Pairwise.cons ?_ (ih (r + 1) (by omega))
    intro b hb
    obtain ⟨j, a, hj, _, hbe⟩ := mem_mapWithRank _ (r + 1) rest b hb
    rw [hbe]
    simp only [relKey, Option.getD_some]
    have h1 : (0 : ℚ) < (k : ℚ) + r := by
      have hk2 : (0 : ℚ) ≤ (k : ℚ) := by exact_mod_cast hk
      have hr2 : (1 : ℚ) ≤ (r : ℚ) := by exact_mod_cast hr
      linarith
    have h2 : ((k : ℚ) + r) ≤ (k : ℚ) + j := by
      have hrj : (r : ℚ) ≤ (j : ℚ) := by
        exact_mod_cast Nat.le_of_succ_le hj
      linarith
    exact one_div_le_one_div_of_le h1 h2

theorem rrfFusion_keyword_only (k : Int) (hk : 0 ≤ k) (kres : SearchResults) (top_k : Nat)
    (hnd : (kres.items.map SearchResultItem.key).Nodup) :
    rrfFusion k kres none top_k
      = mapWithRank (fun i it =>
          { it with keyword_score := some (1 / ((k : ℚ) + i)),
                    semantic_score := none,
                    relevance_score := some (1 / ((k : ℚ) + i)) }) 1 (kres.items.take top_k) := by
  simp only [rrfFusion]
  rw [process_keyword_disjoint k kres.items [] 1 (by intro it _; rfl) hnd]
  rw [List.nil_append, map_finalize_kwEnum k hk 1 (le_refl 1) kres.items,
    sortDescStable_of_sorted _ (pairwise_fuse_desc k hk kres.items 1 (le_refl 1)),
    mapWithRank_take]

/-- C2 counterexample: with a semantic collaborator that raises
`SemanticSearchServiceError` on every call, the hybrid-mode search result is
not equal to the keyword-mode search result with the same arguments: the
scores are the RRF values `1 / (k + r)` instead of `1 / r`, and `has_more`
is computed against the oversampled limit `top_k * 2`. -/
theorem hybrid_degraded_ne_keyword_cex :
    hybridSvcFail.search "q" Mode.hybrid 1 "titleCreatorYear" "-attachment" none
      ≠ hybridSvcFail.search "q" Mode.keyword 1 "titleCreatorYear" "-attachment" none := by
  have h1 : hybridSvcFail.search "q" Mode.hybrid 1 "titleCreatorYear" "-attachment" none
      = Except.ok
          { query := "q", total := 1, count := 1,
            items := [{ key := "A", title := "A", keyword_score := some (1 / 61),
                        relevance_score := some (1 / 61), rank := some 1 }],
            has_more := false } := by
    with_unfolding_all rfl
  have h2 : hybridSvcFail.search "q" Mode.keyword 1 "titleCreatorYear" "-attachment" none
      = Except.ok
          { query := "q", total := 1, count := 1,
            items := [{ key := "A", title := "A", keyword_score := some 1,
                        relevance_score := some 1, rank := some 1 }],
            has_more := true } := by
    with_unfolding_all rfl
  rw [h1, h2]
  intro h
  rw [Except.ok.injEq] at h
  have hmore := congrArg SearchResults.has_more h
  simp at hmore

/-- C2 (amended): if the semantic collaborator raises
`SemanticSearchServiceError` on every call, a hybrid-mode search raises no
error, and (when the keyword fetch at limit `top_k * 2` succeeds with
pairwise-distinct keys and `rrf_k ≥ 0`) returns the first `top_k` keyword
items in keyword order with `rank = r`, `keyword_score = relevance_score =
1 / (rrf_k + r)` at position `r`, null `semantic_score`, and `has_more`
taken from that `top_k * 2`-limit fetch — not the keyword-mode scores
`1 / r` nor the keyword-mode `has_more`. -/
theorem hybrid_degraded_keyword_only (svc : HybridSearchService)
    (collab : String → Nat → Except Exc (List SemanticHit))
    (query keyword_mode item_type : String) (tags : Option (List String)) (top_k : Nat)
    (kres : SearchResults)
    (hc : svc.semantic_search = some collab)
    (hfail : ∀ q n, ∃ m, collab q n = Except.error (Exc.semanticSearchServiceError m))
    (hk : svc.keywordSearchRun query (top_k * 2) keyword_mode item_type tags = Except.ok kres)
    (hnd : (kres.items.map SearchResultItem.key).Nodup)
    (hkpos : 0 ≤ svc.rrf_k) :
    svc.search query Mode.hybrid top_k keyword_mode item_type tags
      = Except.ok
          { query := query,
            total := (kres.items.take top_k).length,
            count := (kres.items.take top_k).length,
            items := mapWithRank (fun r it =>
                { it with
                  keyword_score := some (1 / ((svc.rrf_k : ℚ) + r)),
                  semantic_score := none,
                  relevance_score := some (1 / ((svc.rrf_k : ℚ) + r)),
                  rank := some r }) 1 (kres.items.take top_k),
            has_more := kres.has_more } := by
  obtain ⟨m, hm⟩ := hfail query (top_k * 2)
  simp only [HybridSearchService.search, HybridSearchService.hybridSearchRrf,
    HybridSearchService.semanticSearchRun, hc, hm, hk, wrapSearchError]
  rw [rrfFusion_keyword_only svc.rrf_k hkpos kres top_k hnd, mapWithRank_comp]
  simp only [mapWithRank_length]

theorem hybrid_degraded_keyword_only_witness :
    hybridSvcFail.search "q" Mode.hybrid 1 "titleCreatorYear" "-attachment" none
      = Except.ok
          { query := "q",
            total := (kwFetchFailW.items.take 1).length,
            count := (kwFetchFailW.items.take 1).length,
            items := mapWithRank (fun r it =>
                { it with
                  keyword_score := some (1 / ((hybridSvcFail.rrf_k : ℚ) + r)),
                  semantic_score := none,
                  relevance_score := some (1 / ((hybridSvcFail.rrf_k : ℚ) + r)),
                  rank := some r }) 1 (kwFetchFailW.items.take 1),
            has_more := kwFetchFailW.has_more } :=
  hybrid_degraded_keyword_only hybridSvcFail semCollabFail "q" "titleCreatorYear"
    "-attachment" none 1 kwFetchFailW rfl (fun _ _ => ⟨"ChromaDB error", rfl⟩) rfl
    (by decide) (by decide)

theorem rrf_fusion_union_null_scores_witness :
    0 ≤ (60 : Int)
    ∧ (((insertOrderKeys [] (kwListC5.items.map SearchResultItem.key
          ++ semListC5.items.map SearchResultItem.key)).length ≤ 5 →
        ((rrfFusion 60 kwListC5 (some semListC5) 5).map SearchResultItem.key).Perm
            (insertOrderKeys [] (kwListC5.items.map SearchResultItem.key
              ++ semListC5.items.map SearchResultItem.key))
        ∧ ((rrfFusion 60 kwListC5 (some semListC5) 5).map SearchResultItem.key).Nodup)
      ∧ ∀ item ∈ rrfFusion 60 kwListC5 (some semListC5) 5,
          (item.keyword_score = none
            ↔ item.key ∉ kwListC5.items.map SearchResultItem.key)
          ∧ (item.semantic_score = none
            ↔ item.key ∉ semListC5.items.map SearchResultItem.key)) :=
  ⟨by decide, rrf_fusion_union_null_scores 60 (by decide) kwListC5 semListC5 5⟩

end ZoteroCore
